import Mathlib

/-!
# Telegram-Translate-Bot: selector and message handling

A shallow embedding of `selector/wrr.go` (the smooth weighted round-robin
selector) and of the sequential parts of `bot.go` (`isAllowed`,
`handleMessage`, `loadConfig`, `Reload`), followed by the properties proved
about them.

Conventions of the embedding:

* Go's `int` is the signed 64-bit integer of the platforms the bot runs on. A
  weight is an `Int`, and every addition and subtraction of the source is
  followed by `wrapInt`, the two's-complement wrap-around of Go arithmetic.
* The selector's mutex serialises `AddItem`, `Select` and
  `TotalConfigWeight`; each is therefore a function on the selector state.
* Items are pointers in Go; an item is identified here by its position in
  `items`, and `Select` returns that position together with the item's value
  after the call.
-/

namespace Selector

/-- Modelled from the spec: the concrete type behind the `WeightedItem`
interface is not part of `selector/wrr.go`. It has the four capabilities the
interface names: `GetName`, `IsDisabled`, `GetConfigWeight` and
`GetCurrentWeight`/`SetCurrentWeight`. -/
structure WeightedItem where
  name : String
  configWeight : Int
  currentWeight : Int
  disabled : Bool
deriving DecidableEq, Repr

/-- The value Go's 64-bit `int` arithmetic gives for the exact result `x`:
reduction modulo 2^64 into the range from -2^63 to 2^63 - 1. -/
def wrapInt (x : Int) : Int :=
  (x + 9223372036854775808) % 18446744073709551616 - 9223372036854775808

/-- Whether an exact value lies in the range of Go's 64-bit `int`. -/
def inInt64 (x : Int) : Bool :=
  decide (-9223372036854775808 ≤ x) && decide (x ≤ 9223372036854775807)

/-- The method `SetCurrentWeight` of the `WeightedItem` interface. -/
def WeightedItem.SetCurrentWeight (e : WeightedItem) (w : Int) : WeightedItem :=
  { e with currentWeight := w }

/-- The selector state: `items` and `totalConfigWeight` (the mutex and the
logger carry no data). -/
structure WeightedRoundRobinSelector where
  items : List WeightedItem
  totalConfigWeight : Int
deriving DecidableEq, Repr

/-- The constructor `NewWeightedRoundRobinSelector`: no items, total weight zero. -/
def NewWeightedRoundRobinSelector : WeightedRoundRobinSelector :=
  { items := [], totalConfigWeight := 0 }

/-- The method `AddItem`: append the item and add its configured weight to the total. -/
def AddItem (s : WeightedRoundRobinSelector) (item : WeightedItem) :
    WeightedRoundRobinSelector :=
  { items := s.items ++ [item],
    totalConfigWeight := wrapInt (s.totalConfigWeight + item.configWeight) }

/-- The method `TotalConfigWeight`. -/
def TotalConfigWeight (s : WeightedRoundRobinSelector) : Int :=
  s.totalConfigWeight

/-- The `for i := range s.items` loop of `Select`, run on the items from
position `i` on, with the loop variables `selectedIndex` and
`maxCurrentWeight`. Returns the updated items and the final loop variables. -/
def selectLoop : List WeightedItem → Nat → Int → Int → List WeightedItem × Int × Int
  | [], _, selectedIndex, maxCurrentWeight => ([], selectedIndex, maxCurrentWeight)
  | entry :: rest, i, selectedIndex, maxCurrentWeight =>
    if entry.disabled then
      let r := selectLoop rest (i + 1) selectedIndex maxCurrentWeight
      (entry :: r.1, r.2)
    else
      let entry1 :=
        entry.SetCurrentWeight (wrapInt (entry.currentWeight + entry.configWeight))
      if selectedIndex = -1 ∨ entry1.currentWeight > maxCurrentWeight then
        let r := selectLoop rest (i + 1) (i : Int) entry1.currentWeight
        (entry1 :: r.1, r.2)
      else
        let r := selectLoop rest (i + 1) selectedIndex maxCurrentWeight
        (entry1 :: r.1, r.2)

/-- The error of `Select` on an empty registry. -/
def errNoItems : String := "no items available in selector"

/-- The error of `Select` when no item is eligible. -/
def errNoAvailable : String := "no available item"

/-- The method `Select`: the new selector state and either an error or the selected
position with the selected item. -/
def Select (s : WeightedRoundRobinSelector) :
    WeightedRoundRobinSelector × Except String (Nat × WeightedItem) :=
  if s.items.length = 0 then
    (s, .error errNoItems)
  else
    let r := selectLoop s.items 0 (-1) 0
    let selectedIndex := r.2.1
    if selectedIndex = -1 then
      ({ s with items := r.1 }, .error errNoAvailable)
    else
      match r.1[selectedIndex.toNat]? with
      | none => ({ s with items := r.1 }, .error "index out of range")
      | some selectedItem0 =>
        let selectedItem :=
          selectedItem0.SetCurrentWeight
            (wrapInt (selectedItem0.currentWeight - s.totalConfigWeight))
        ({ s with items := r.1.set selectedIndex.toNat selectedItem },
          .ok (selectedIndex.toNat, selectedItem))

/-- The results of `n` consecutive `Select` calls and the state after them. -/
def selectN : WeightedRoundRobinSelector → Nat →
    WeightedRoundRobinSelector × List (Except String (Nat × WeightedItem))
  | s, 0 => (s, [])
  | s, n + 1 =>
    let r := Select s
    let rest := selectN r.1 n
    (rest.1, r.2 :: rest.2)

/-- The name of the item a `Select` call returned, if it succeeded. -/
def resultName : Except String (Nat × WeightedItem) → Option String
  | .ok (_, it) => some it.name
  | .error _ => none

/-- Whether a `Select` call returned the item at position `j`. -/
def returnedIndex (j : Nat) : Except String (Nat × WeightedItem) → Bool
  | .ok (k, _) => k == j
  | .error _ => false

/-- How many of the calls returned the item at position `j`. -/
def countSelected (j : Nat) (rs : List (Except String (Nat × WeightedItem))) : Nat :=
  (rs.filter (returnedIndex j)).length

/-- A selector built from a fresh one by `AddItem` calls, in order. -/
def build (its : List WeightedItem) : WeightedRoundRobinSelector :=
  its.foldl AddItem NewWeightedRoundRobinSelector

/-- The weight an item has after the increment step of `Select`: the Go value
of `currentWeight + configWeight`. -/
def postWeight (e : WeightedItem) : Int := wrapInt (e.currentWeight + e.configWeight)

/-- The increment step on one item: disabled items are skipped. -/
def bump (e : WeightedItem) : WeightedItem :=
  if e.disabled then e
  else e.SetCurrentWeight (wrapInt (e.currentWeight + e.configWeight))

/-- Modelled from the spec: the operations the rest of the program performs on
a selector. Registration and selection are `AddItem` and `Select`; enabling or
disabling an item is done by the item's owner, outside `selector/wrr.go`, and
changes only what `IsDisabled` reports. -/
inductive Op where
  | addItem (item : WeightedItem)
  | select
  | setDisabled (i : Nat) (d : Bool)
deriving Repr

/-- One operation on the selector state. -/
def applyOp (s : WeightedRoundRobinSelector) : Op → WeightedRoundRobinSelector
  | .addItem item => AddItem s item
  | .select => (Select s).1
  | .setDisabled i d => { s with items := s.items.modify (fun e => { e with disabled := d }) i }

/-- A run of operations, left to right. -/
def runOps (s : WeightedRoundRobinSelector) (ops : List Op) : WeightedRoundRobinSelector :=
  ops.foldl applyOp s

/-- The sum of the configured weights of a list of items. -/
def sumConfig (l : List WeightedItem) : Int := (l.map (fun e => e.configWeight)).sum

/-- The sum of the current weights of a list of items. -/
def sumCurrent (l : List WeightedItem) : Int := (l.map (fun e => e.currentWeight)).sum

/-- What `Select` never changes in an item: name, configured weight and
enabled state. -/
def staticPart (e : WeightedItem) : String × Int × Bool :=
  (e.name, e.configWeight, e.disabled)

/-- The state of an all-enabled selector of total weight `T` after `n`
successful selections, of which `c j` returned position `j`, when the number
of items times `T` fits in an `int`. -/
def Balanced (T : Int) (n : Nat) (c : Nat → Nat) (s : WeightedRoundRobinSelector) : Prop :=
  (s.items.length : Int) * T ≤ 9223372036854775807 ∧
  s.totalConfigWeight = T ∧ sumConfig s.items = T ∧
  (∀ e ∈ s.items, e.disabled = false ∧ 0 ≤ e.configWeight) ∧
  sumCurrent s.items = 0 ∧
  ∀ (j : Nat) (e : WeightedItem), s.items[j]? = some e →
    e.currentWeight = (n : Int) * e.configWeight - T * (c j : Int) ∧ -T < e.currentWeight

/-- A state in which every weight stays negative after the increment step and
the two eligible items tie; the third item is disabled. -/
def negativeState : WeightedRoundRobinSelector :=
  { items :=
      [{ name := "X", configWeight := 9, currentWeight := 50, disabled := true },
       { name := "A", configWeight := 1, currentWeight := -5, disabled := false },
       { name := "B", configWeight := 2, currentWeight := -6, disabled := false }],
    totalConfigWeight := 12 }

/-- A state in which the increment of the first item leaves the `int` range:
its current weight is the largest `int`. -/
def overflowState : WeightedRoundRobinSelector :=
  { items :=
      [{ name := "A", configWeight := 1, currentWeight := 9223372036854775807,
         disabled := false },
       { name := "B", configWeight := 1, currentWeight := 0, disabled := false }],
    totalConfigWeight := 2 }

/-- The first item of `overflowState`. -/
def overflowFirst : WeightedItem :=
  { name := "A", configWeight := 1, currentWeight := 9223372036854775807, disabled := false }

/-- An enabled item of configured weight 2^62 and current weight zero. -/
def bigA : WeightedItem :=
  { name := "A", configWeight := 4611686018427387904, currentWeight := 0, disabled := false }

/-- A second enabled item of configured weight 2^62 and current weight zero. -/
def bigB : WeightedItem :=
  { name := "B", configWeight := 4611686018427387904, currentWeight := 0, disabled := false }

/-- The state of the selector built from `bigA` and `bigB` after two `Select`
calls; the run repeats from here with period two. -/
def bigCycleState : WeightedRoundRobinSelector :=
  { items :=
      [{ name := "A", configWeight := 4611686018427387904,
         currentWeight := -9223372036854775808, disabled := false },
       { name := "B", configWeight := 4611686018427387904,
         currentWeight := -9223372036854775808, disabled := false }],
    totalConfigWeight := -9223372036854775808 }

/-- The exact, unbounded value of `currentWeight + configWeight`. -/
def exactSum (e : WeightedItem) : Int := e.currentWeight + e.configWeight

/-- The selector built from `bigA` and `bigB` after one `Select` call. -/
def bigSecondCall : WeightedRoundRobinSelector :=
  runOps NewWeightedRoundRobinSelector [.addItem bigA, .addItem bigB, .select]

/-- Item A of the scenarios: weight 3, enabled. -/
def itemA : WeightedItem :=
  { name := "A", configWeight := 3, currentWeight := 0, disabled := false }

/-- Item B of the scenarios: weight 1, enabled. -/
def itemB : WeightedItem :=
  { name := "B", configWeight := 1, currentWeight := 0, disabled := false }

/-- Item C of the scenarios: weight 4, disabled. -/
def itemC : WeightedItem :=
  { name := "C", configWeight := 4, currentWeight := 0, disabled := true }

end Selector

namespace TgBot

/-- The type `BotMessageSettings`. -/
structure BotMessageSettings where
  disableNotification : Bool
  disableLinkPreview : Bool
deriving DecidableEq, Repr

/-- The type `BotConfig`. -/
structure BotConfig where
  debug : Bool
  token : String
  messageSettings : BotMessageSettings
  allowedChats : List Int
  workerPoolSize : Int
deriving DecidableEq, Repr

/-- The fields of `Bot` that `loadConfig` and `Reload` use. The translate
service is a pointer in Go and is represented by a handle number;
`allowedChats` is the content of the `SafeSlice`; `stopServeNotify` is the
number of signals waiting in the buffer of the channel of that name. -/
structure Bot where
  translateService : Nat
  messageSettings : BotMessageSettings
  allowedChats : List Int
  workerPoolSize : Int
  stopServeNotify : Nat
deriving DecidableEq, Repr

/-- The buffer size of `stopServeNotify`, from `make(chan int, 1)` in `newBot`. -/
def stopServeNotifyCap : Nat := 1

/-- Modelled from the spec: the `Message` type is declared outside `bot.go`.
It carries the chat type, the chat id and the sender; the sender is a pointer
in the client library and may be nil. -/
structure Message where
  chatType : String
  chatId : Int
  fromId : Option Int
deriving DecidableEq, Repr

/-- The method `SafeSlice.Contains`. -/
def Contains (s : List Int) (elem : Int) : Bool := s.contains elem

/-- The method `isAllowed`: `none` stands for the nil dereference of `message.From`. -/
def isAllowed (b : Bot) (message : Message) : Option Bool :=
  if message.chatType = "private" then
    match message.fromId with
    | none => none
    | some id => some (Contains b.allowedChats id)
  else
    some (Contains b.allowedChats message.chatId)

/-- What a call to an external collaborator does: return without error,
return an error, or panic. -/
inductive Outcome where
  | success
  | error
  | panic
deriving DecidableEq, Repr

/-- The outcomes of the three external calls of `handleMessage`. -/
structure Env where
  detect : Outcome
  translate : Outcome
  send : Outcome
deriving DecidableEq, Repr

/-- The observable steps of `handleMessage`: the three external calls and the
lifecycle transitions of the message. -/
inductive Event where
  | detectLang
  | translate
  | send
  | onUnauthorized
  | onMessageHandleFailed
  | onSuccess
deriving DecidableEq, Repr

/-- The body of `handleMessage` without the deferred `recover`: the events in
program order and whether the body ended in a panic. -/
def handleMessageBody (b : Bot) (msg : Message) (env : Env) : List Event × Bool :=
  match isAllowed b msg with
  | none => ([], true)
  | some false => ([.onUnauthorized], false)
  | some true =>
    match env.detect with
    | .panic => ([.detectLang], true)
    | .error => ([.detectLang, .onMessageHandleFailed], false)
    | .success =>
      match env.translate with
      | .panic => ([.detectLang, .translate], true)
      | .error => ([.detectLang, .translate, .onMessageHandleFailed], false)
      | .success =>
        match env.send with
        | .panic => ([.detectLang, .translate, .send], true)
        | .error =>
          ([.detectLang, .translate, .send, .onMessageHandleFailed, .onSuccess], false)
        | .success => ([.detectLang, .translate, .send, .onSuccess], false)

/-- The method `handleMessage`: the body, then the deferred function, which records the
failed transition when it recovers a panic. -/
def handleMessage (b : Bot) (msg : Message) (env : Env) : List Event :=
  let r := handleMessageBody b msg env
  if r.2 then r.1 ++ [.onMessageHandleFailed] else r.1

/-- Whether an event is a terminal lifecycle transition. -/
def Event.isTerminal : Event → Bool
  | .onUnauthorized => true
  | .onMessageHandleFailed => true
  | .onSuccess => true
  | _ => false

/-- The terminal transitions of a run, in order. -/
def terminalTransitions (evs : List Event) : List Event := evs.filter Event.isTerminal

/-- The method `loadConfig`: the new bot state, `reServeRequired` and the error, which the
function never sets. -/
def loadConfig (b : Bot) (botConfig : BotConfig) (translateService : Nat) :
    Bot × Bool × Option String :=
  let b1 := { b with allowedChats := botConfig.allowedChats }
  let b2 := { b1 with messageSettings := botConfig.messageSettings }
  let b3 := { b2 with translateService := translateService }
  let reServeRequired := b3.workerPoolSize != botConfig.workerPoolSize
  let b4 := { b3 with workerPoolSize := botConfig.workerPoolSize }
  (b4, reServeRequired, none)

/-- What `Reload` does besides storing the configuration: the send on
`stopServeNotify` and the start of a new `ServeBot` goroutine. -/
inductive Action where
  | sendStop
  | goServeBot
deriving DecidableEq, Repr

/-- How a `Reload` call ends when no other goroutine takes part: it returns
its error value, or it stays blocked in the send on `stopServeNotify` because
the buffer of the channel is full. -/
inductive ReloadEnd where
  | returned (err : Option String)
  | blockedOnSend
deriving DecidableEq, Repr

/-- The method `Reload`, run on its own: the bot state it leaves, the actions
it has completed in program order, and how it ends. The send completes only
when the buffer of `stopServeNotify` has room; otherwise the call is blocked
at the send and the `go b.ServeBot()` after it has not been reached. -/
def Reload (b : Bot) (botConfig : BotConfig) (translateService : Nat) :
    Bot × List Action × ReloadEnd :=
  let r := loadConfig b botConfig translateService
  match r.2.2 with
  | some err => (r.1, [], .returned (some err))
  | none =>
    if r.2.1 then
      if r.1.stopServeNotify < stopServeNotifyCap then
        ({ r.1 with stopServeNotify := r.1.stopServeNotify + 1 },
          [.sendStop, .goServeBot], .returned none)
      else (r.1, [], .blockedOnSend)
    else (r.1, [], .returned none)

/-- A bot whose allow-list holds the single id 42. -/
def sampleBot : Bot :=
  { translateService := 1,
    messageSettings := { disableNotification := false, disableLinkPreview := false },
    allowedChats := [42],
    workerPoolSize := 1,
    stopServeNotify := 0 }

/-- A bot whose stop signal of an earlier reload has not been consumed yet. -/
def pendingStopBot : Bot :=
  { translateService := 1,
    messageSettings := { disableNotification := false, disableLinkPreview := false },
    allowedChats := [42],
    workerPoolSize := 2,
    stopServeNotify := 1 }

/-- A configuration that changes the pool size of the sample bots to 3. -/
def resizeConfig : BotConfig :=
  { debug := false,
    token := "t",
    messageSettings := { disableNotification := true, disableLinkPreview := false },
    allowedChats := [7, 42],
    workerPoolSize := 3 }

/-- A private message from the allowed sender 42. -/
def sampleMessage : Message :=
  { chatType := "private", chatId := 42, fromId := some 42 }

/-- Detection and translation succeed and the reply send returns an error. -/
def sendFails : Env :=
  { detect := .success, translate := .success, send := .error }

end TgBot


namespace Selector

/-! ## Wrap-around arithmetic -/

theorem wrapInt_of_bounds (x : Int) (h1 : -9223372036854775808 ≤ x)
    (h2 : x ≤ 9223372036854775807) : wrapInt x = x := by
  unfold wrapInt
  omega

theorem wrapInt_of_inInt64 (x : Int) (h : inInt64 x = true) : wrapInt x = x := by
  unfold inInt64 at h
  simp only [Bool.and_eq_true, decide_eq_true_eq] at h
  exact wrapInt_of_bounds x h.1 h.2

theorem wrapInt_wrapInt_add (a b : Int) : wrapInt (wrapInt a + b) = wrapInt (a + b) := by
  unfold wrapInt
  omega

theorem wrapInt_sub_wrapInt (a b : Int) : wrapInt (a - wrapInt b) = wrapInt (a - b) := by
  unfold wrapInt
  omega

theorem wrapInt_wrapInt_sub (a b : Int) : wrapInt (wrapInt a - b) = wrapInt (a - b) := by
  unfold wrapInt
  omega

/-! ## The selection loop -/

theorem selectLoop_items (l : List WeightedItem) (i : Nat) (sel mx : Int) :
    (selectLoop l i sel mx).1 = l.map bump := by
  induction l generalizing i sel mx with
  | nil => rfl
  | cons e rest ih =>
    unfold selectLoop
    by_cases hd : e.disabled = true
    · simp [hd, ih, bump]
    · by_cases hc : sel = -1 ∨
          (e.SetCurrentWeight (wrapInt (e.currentWeight + e.configWeight))).currentWeight > mx
      · simp [hd, hc, ih, bump]
      · simp [hd, hc, ih, bump]

/-- What the loop variables hold after the loop: either nothing was selected
in this part of the list, or the selected position is the first one holding
the largest post-increment weight among the eligible items. -/
theorem selectLoop_spec (l : List WeightedItem) (i : Nat) (sel mx : Int) :
    ((selectLoop l i sel mx).2 = (sel, mx) ∧
      ∀ e ∈ l, e.disabled = false → sel ≠ -1 ∧ postWeight e ≤ mx) ∨
    (∃ (k : Nat) (e : WeightedItem), l[k]? = some e ∧ e.disabled = false ∧
      (selectLoop l i sel mx).2 = (((i + k : Nat) : Int), postWeight e) ∧
      (sel = -1 ∨ postWeight e > mx) ∧
      (∀ (j : Nat) (e2 : WeightedItem), l[j]? = some e2 → e2.disabled = false →
        postWeight e2 ≤ postWeight e) ∧
      (∀ (j : Nat) (e2 : WeightedItem), l[j]? = some e2 → e2.disabled = false → j < k →
        postWeight e2 < postWeight e)) := by
  induction l generalizing i sel mx with
  | nil => left; simp [selectLoop]
  | cons e rest ih =>
    unfold selectLoop
    by_cases hd : e.disabled = true
    · simp only [hd, if_true]
      rcases ih (i + 1) sel mx with ⟨h1, h2⟩ | ⟨k, e1, hk, hdis, hres, hgt, hall, hlt⟩
      · left
        refine ⟨h1, ?_⟩
        intro e2 he2 hd2
        rcases List.mem_cons.1 he2 with rfl | hmem
        · simp [hd] at hd2
        · exact h2 e2 hmem hd2
      · right
        refine ⟨k + 1, e1, by simpa using hk, hdis, ?_, hgt, ?_, ?_⟩
        · rw [hres]; push_cast; congr 1; ring_nf
        · intro j e2 hj hd2
          cases j with
          | zero => simp at hj; subst hj; simp [hd] at hd2
          | succ j => exact hall j e2 (by simpa using hj) hd2
        · intro j e2 hj hd2 hjk
          cases j with
          | zero => simp at hj; subst hj; simp [hd] at hd2
          | succ j => exact hlt j e2 (by simpa using hj) hd2 (by omega)
    · have hd0 : e.disabled = false := by simpa using hd
      simp only [hd, if_false]
      have hpw : (e.SetCurrentWeight
          (wrapInt (e.currentWeight + e.configWeight))).currentWeight = postWeight e := rfl
      rw [hpw]
      by_cases hc : sel = -1 ∨ postWeight e > mx
      · simp only [hc, if_true]
        rcases ih (i + 1) (i : Int) (postWeight e) with
          ⟨h1, h2⟩ | ⟨k, e1, hk, hdis, hres, hgt, hall, hlt⟩
        · right
          refine ⟨0, e, by simp, hd0, ?_, hc, ?_, ?_⟩
          · rw [h1]; simp
          · intro j e2 hj hd2
            cases j with
            | zero => simp at hj; subst hj; exact le_refl _
            | succ j =>
              have hj2 : rest[j]? = some e2 := by simpa using hj
              exact (h2 e2 (List.getElem?_mem hj2) hd2).2
          · intro j e2 hj hd2 hjk
            omega
        · have hgt2 : postWeight e1 > postWeight e := by
            rcases hgt with h | h
            · omega
            · exact h
          right
          refine ⟨k + 1, e1, by simpa using hk, hdis, ?_, ?_, ?_, ?_⟩
          · rw [hres]; push_cast; congr 1; ring_nf
          · rcases hc with h | h
            · left; exact h
            · right; omega
          · intro j e2 hj hd2
            cases j with
            | zero => simp at hj; subst hj; omega
            | succ j => exact hall j e2 (by simpa using hj) hd2
          · intro j e2 hj hd2 hjk
            cases j with
            | zero => simp at hj; subst hj; omega
            | succ j => exact hlt j e2 (by simpa using hj) hd2 (by omega)
      · simp only [hc, if_false]
        have hc1 : sel ≠ -1 := fun h => hc (Or.inl h)
        have hc2 : postWeight e ≤ mx := by
          by_contra h
          exact hc (Or.inr (by omega))
        rcases ih (i + 1) sel mx with ⟨h1, h2⟩ | ⟨k, e1, hk, hdis, hres, hgt, hall, hlt⟩
        · left
          refine ⟨h1, ?_⟩
          intro e2 he2 hd2
          rcases List.mem_cons.1 he2 with rfl | hmem
          · exact ⟨hc1, hc2⟩
          · exact h2 e2 hmem hd2
        · have hgt2 : postWeight e1 > mx := by
            rcases hgt with h | h
            · exact absurd h hc1
            · exact h
          right
          refine ⟨k + 1, e1, by simpa using hk, hdis, ?_, Or.inr hgt2, ?_, ?_⟩
          · rw [hres]; push_cast; congr 1; ring_nf
          · intro j e2 hj hd2
            cases j with
            | zero => simp at hj; subst hj; omega
            | succ j => exact hall j e2 (by simpa using hj) hd2
          · intro j e2 hj hd2 hjk
            cases j with
            | zero => simp at hj; subst hj; omega
            | succ j => exact hlt j e2 (by simpa using hj) hd2 (by omega)

end Selector

namespace Selector

/-! ## The three outcomes of `Select` -/

theorem bump_of_disabled {e : WeightedItem} (h : e.disabled = true) : bump e = e := by
  simp [bump, h]

theorem bump_of_enabled {e : WeightedItem} (h : e.disabled = false) :
    bump e = e.SetCurrentWeight (postWeight e) := by
  simp [bump, h, postWeight]

theorem bump_currentWeight_of_enabled {e : WeightedItem} (h : e.disabled = false) :
    (bump e).currentWeight = postWeight e := by
  rw [bump_of_enabled h]
  rfl

theorem map_bump_of_all_disabled (l : List WeightedItem)
    (h : ∀ e ∈ l, e.disabled = true) : l.map bump = l := by
  induction l with
  | nil => rfl
  | cons e rest ih =>
    simp only [List.map_cons]
    rw [bump_of_disabled (h e (List.mem_cons_self _ _)),
      ih (fun x hx => h x (List.mem_cons_of_mem _ hx))]

/-- The three ways a `Select` call can go, with the state it leaves. -/
theorem Select_cases (s : WeightedRoundRobinSelector) :
    (s.items = [] ∧ Select s = (s, .error errNoItems)) ∨
    (s.items ≠ [] ∧ (∀ e ∈ s.items, e.disabled = true) ∧
      Select s = (s, .error errNoAvailable)) ∨
    (∃ (k : Nat) (e : WeightedItem), s.items[k]? = some e ∧ e.disabled = false ∧
      (∀ (j : Nat) (e2 : WeightedItem), s.items[j]? = some e2 → e2.disabled = false →
        postWeight e2 ≤ postWeight e) ∧
      (∀ (j : Nat) (e2 : WeightedItem), s.items[j]? = some e2 → e2.disabled = false → j < k →
        postWeight e2 < postWeight e) ∧
      Select s =
        ({ s with items := ((s.items.map bump).set k
            (e.SetCurrentWeight (wrapInt (postWeight e - s.totalConfigWeight)))) },
          .ok (k, e.SetCurrentWeight (wrapInt (postWeight e - s.totalConfigWeight))))) := by
  by_cases hnil : s.items = []
  · left
    refine ⟨hnil, ?_⟩
    simp [Select, hnil]
  · right
    have hlen : ¬ s.items.length = 0 := by
      intro h
      exact hnil (List.length_eq_zero.1 h)
    rcases selectLoop_spec s.items 0 (-1) 0 with
      ⟨h1, h2⟩ | ⟨k, e, hk, hdis, hres, -, hall, hlt⟩
    · left
      have hall : ∀ e ∈ s.items, e.disabled = true := by
        intro e he
        by_contra hne
        have hf : e.disabled = false := by simpa using hne
        exact (h2 e he hf).1 rfl
      refine ⟨hnil, hall, ?_⟩
      have hsel : (selectLoop s.items 0 (-1) 0).2.1 = -1 := by rw [h1]
      unfold Select
      simp only [hlen, if_false, hsel, if_true, selectLoop_items,
        map_bump_of_all_disabled s.items hall]
    · right
      refine ⟨k, e, hk, hdis, hall, hlt, ?_⟩
      have hsel : (selectLoop s.items 0 (-1) 0).2.1 = (k : Int) := by rw [hres]; simp
      have hne : ¬ ((k : Int) = -1) := by omega
      have hget : (s.items.map bump)[k]? = some (bump e) := by simp [hk]
      unfold Select
      simp only [hlen, if_false, hsel, hne, selectLoop_items, Int.toNat_ofNat, hget]
      rw [bump_of_enabled hdis]
      rfl

end Selector

namespace Selector

/-! ## What a `Select` call changes -/

theorem map_set_same {β : Type} (f : WeightedItem → β) (l : List WeightedItem) (k : Nat)
    (e x : WeightedItem) (hk : l[k]? = some e) (hf : f x = f e) :
    (l.set k x).map f = l.map f := by
  apply List.ext_getElem?
  intro n
  simp only [List.getElem?_map, List.getElem?_set]
  by_cases h : k = n
  · subst h
    have hlt : k < l.length := by
      by_contra hge
      rw [List.getElem?_eq_none (by omega)] at hk
      exact Option.noConfusion hk
    simp [hlt, hk, hf]
  · simp [h]

theorem sum_map_set (f : WeightedItem → Int) (l : List WeightedItem) (k : Nat)
    (e x : WeightedItem) (hk : l[k]? = some e) :
    ((l.set k x).map f).sum = (l.map f).sum - f e + f x := by
  induction l generalizing k with
  | nil => simp at hk
  | cons a rest ih =>
    cases k with
    | zero =>
      simp at hk
      subst hk
      simp
      ring
    | succ k =>
      have hk2 : rest[k]? = some e := by simpa using hk
      simp only [List.set_cons_succ, List.map_cons, List.sum_cons, ih k hk2]
      ring

theorem staticPart_bump (e : WeightedItem) : staticPart (bump e) = staticPart e := by
  unfold bump
  split <;> rfl

theorem map_staticPart_bump (l : List WeightedItem) :
    (l.map bump).map staticPart = l.map staticPart := by
  rw [List.map_map]
  apply List.map_congr_left
  intro e _
  exact staticPart_bump e

/-- A `Select` call keeps the total, the order of the items, their names,
their configured weights and their enabled state. -/
theorem Select_frame (s : WeightedRoundRobinSelector) :
    (Select s).1.totalConfigWeight = s.totalConfigWeight ∧
    (Select s).1.items.map staticPart = s.items.map staticPart := by
  rcases Select_cases s with ⟨_, h⟩ | ⟨_, _, h⟩ | ⟨k, e, hk, hdis, _, _, h⟩
  · rw [h]; exact ⟨rfl, rfl⟩
  · rw [h]; exact ⟨rfl, rfl⟩
  · rw [h]
    refine ⟨rfl, ?_⟩
    show ((s.items.map bump).set k _).map staticPart = _
    rw [map_set_same staticPart (s.items.map bump) k (bump e) _ (by simp [hk])
      (by rw [staticPart_bump]; rfl), map_staticPart_bump]

theorem sumConfig_of_static {l1 l2 : List WeightedItem}
    (h : l1.map staticPart = l2.map staticPart) : sumConfig l1 = sumConfig l2 := by
  have h2 := congrArg (List.map (fun t : String × Int × Bool => t.2.1)) h
  simp only [List.map_map] at h2
  unfold sumConfig
  have e1 : (fun e : WeightedItem => e.configWeight) =
      ((fun t : String × Int × Bool => t.2.1) ∘ staticPart) := rfl
  rw [e1, h2]

theorem getElem?_of_static {l1 l2 : List WeightedItem}
    (h : l1.map staticPart = l2.map staticPart) (j : Nat) (e : WeightedItem)
    (hj : l1[j]? = some e) : ∃ e2, l2[j]? = some e2 ∧ staticPart e2 = staticPart e := by
  have h2 := congrArg (fun l : List (String × Int × Bool) => l[j]?) h
  simp only [List.getElem?_map, hj, Option.map_some'] at h2
  cases h3 : l2[j]? with
  | none => rw [h3] at h2; exact Option.noConfusion h2
  | some e2 =>
    rw [h3] at h2
    exact ⟨e2, rfl, (Option.some.inj h2).symm⟩

end Selector

namespace Selector

/-! ## Which item `Select` returns -/

theorem getElem?_set_self_of_some (l : List WeightedItem) (k : Nat) (e x : WeightedItem)
    (hk : l[k]? = some e) : (l.set k x)[k]? = some x := by
  have hlt : k < l.length := by
    by_contra hge
    rw [List.getElem?_eq_none (by omega)] at hk
    exact Option.noConfusion hk
  simp [List.getElem?_set, hlt]

/-- C1 (as amended): on a selector with at least one non-disabled item, Select
succeeds and returns the item at the smallest position i such that item i is
not disabled and its weight after the increment step is at least that of every
non-disabled item. The weight after the increment step is the 64-bit value the
code stores and compares, the wrap-around of currentWeight + configWeight; it
is the exact sum whenever that sum lies in the range of a 64-bit int. No sign
condition is needed, so the case of all weights zero or negative is covered. -/
theorem Select_returns_first_maximum (s : WeightedRoundRobinSelector)
    (h : ∃ e ∈ s.items, e.disabled = false) :
    (∀ e : WeightedItem, inInt64 (e.currentWeight + e.configWeight) = true →
      postWeight e = e.currentWeight + e.configWeight) ∧
    ∃ (i : Nat) (e it : WeightedItem), s.items[i]? = some e ∧
      (e.disabled = false ∧
        ∀ (j : Nat) (e2 : WeightedItem), s.items[j]? = some e2 → e2.disabled = false →
          postWeight e2 ≤ postWeight e) ∧
      (∀ (i2 : Nat) (e1 : WeightedItem), i2 < i → s.items[i2]? = some e1 →
        ¬ (e1.disabled = false ∧
          ∀ (j : Nat) (e2 : WeightedItem), s.items[j]? = some e2 → e2.disabled = false →
            postWeight e2 ≤ postWeight e1)) ∧
      (Select s).2 = .ok (i, it) ∧
      (Select s).1.items[i]? = some it ∧
      it.name = e.name ∧ it.configWeight = e.configWeight ∧ it.disabled = false ∧
      it.currentWeight = wrapInt (postWeight e - s.totalConfigWeight) := by
  refine ⟨fun e he => wrapInt_of_inInt64 _ he, ?_⟩
  obtain ⟨e0, he0, hd0⟩ := h
  rcases Select_cases s with ⟨hnil, _⟩ | ⟨_, hall, _⟩ | ⟨k, e, hk, hdis, hmax, hlt, hsel⟩
  · rw [hnil] at he0
    exact absurd he0 (List.not_mem_nil _)
  · have := hall e0 he0
    rw [hd0] at this
    exact Bool.noConfusion this
  · refine ⟨k, e, e.SetCurrentWeight (wrapInt (postWeight e - s.totalConfigWeight)), hk,
      ⟨hdis, hmax⟩, ?_, ?_, ?_, rfl, rfl, hdis, rfl⟩
    · intro i2 e1 hi2 hget hcontra
      have h1 := hlt i2 e1 hget hcontra.1 hi2
      have h2 := hcontra.2 k e hk hdis
      omega
    · rw [hsel]
    · rw [hsel]
      exact getElem?_set_self_of_some (s.items.map bump) k (bump e) _ (by simp [hk])

/-- C1 (as amended) at a state whose post-increment weights are all negative
and tied. -/
theorem Select_returns_first_maximum_witness :
    (∃ e ∈ negativeState.items, e.disabled = false) ∧
    ((∀ e : WeightedItem, inInt64 (e.currentWeight + e.configWeight) = true →
      postWeight e = e.currentWeight + e.configWeight) ∧
    ∃ (i : Nat) (e it : WeightedItem), negativeState.items[i]? = some e ∧
      (e.disabled = false ∧
        ∀ (j : Nat) (e2 : WeightedItem), negativeState.items[j]? = some e2 →
          e2.disabled = false → postWeight e2 ≤ postWeight e) ∧
      (∀ (i2 : Nat) (e1 : WeightedItem), i2 < i → negativeState.items[i2]? = some e1 →
        ¬ (e1.disabled = false ∧
          ∀ (j : Nat) (e2 : WeightedItem), negativeState.items[j]? = some e2 →
            e2.disabled = false → postWeight e2 ≤ postWeight e1)) ∧
      (Select negativeState).2 = .ok (i, it) ∧
      (Select negativeState).1.items[i]? = some it ∧
      it.name = e.name ∧ it.configWeight = e.configWeight ∧ it.disabled = false ∧
      it.currentWeight = wrapInt (postWeight e - negativeState.totalConfigWeight)) :=
  ⟨⟨{ name := "A", configWeight := 1, currentWeight := -5, disabled := false },
      by decide, rfl⟩,
    Select_returns_first_maximum negativeState
      ⟨{ name := "A", configWeight := 1, currentWeight := -5, disabled := false },
        by decide, rfl⟩⟩

/-- C1 (counterexample to the claim as stated): in a state where A has
configured weight 1 and the largest int as current weight and B has configured
weight 1 and current weight 0, both enabled, the exact sum of A,
9223372036854775808, is at least that of B, which is 1, so the claim names A,
the item at position 0; the stored sum of A wraps to the smallest int and
Select returns B, the item at position 1. -/
theorem Select_overflow_returns_later_item :
    overflowState.items[0]? = some overflowFirst ∧
    (∀ e2 ∈ overflowState.items, e2.disabled = false ∧ exactSum e2 ≤ exactSum overflowFirst) ∧
    (Select overflowState).2 =
      .ok (1, { name := "B", configWeight := 1, currentWeight := -1, disabled := false }) ∧
    (Select overflowState).1.items =
      [{ name := "A", configWeight := 1, currentWeight := -9223372036854775808,
         disabled := false },
       { name := "B", configWeight := 1, currentWeight := -1, disabled := false }] :=
  ⟨by decide, by decide, by rfl, by decide⟩

/-- C3: Select fails with "no items available in selector" exactly when the
registry is empty, fails with "no available item" exactly when the registry is
non-empty and every item is disabled, and otherwise succeeds and returns a
registered item that is not disabled. -/
theorem Select_error_cases (s : WeightedRoundRobinSelector) :
    ((Select s).2 = .error "no items available in selector" ↔ s.items = []) ∧
    ((Select s).2 = .error "no available item" ↔
      (s.items ≠ [] ∧ ∀ e ∈ s.items, e.disabled = true)) ∧
    ((s.items ≠ [] ∧ ¬ (∀ e ∈ s.items, e.disabled = true)) →
      ∃ (k : Nat) (e it : WeightedItem), s.items[k]? = some e ∧ e.disabled = false ∧
        (Select s).2 = .ok (k, it) ∧ it.name = e.name ∧ it.disabled = false ∧
        (Select s).1.items[k]? = some it) := by
  rcases Select_cases s with ⟨hnil, hsel⟩ | ⟨hnn, hall, hsel⟩ |
    ⟨k, e, hk, hdis, _, _, hsel⟩
  · refine ⟨⟨fun _ => hnil, fun _ => by rw [hsel]; rfl⟩, ⟨?_, ?_⟩, ?_⟩
    · intro h
      rw [hsel] at h
      exact absurd (Except.error.inj h) (by decide)
    · intro h
      exact absurd hnil h.1
    · intro h
      exact absurd hnil h.1
  · refine ⟨⟨?_, fun h => absurd h hnn⟩, ⟨fun _ => ⟨hnn, hall⟩, fun _ => by rw [hsel]; rfl⟩, ?_⟩
    · intro h
      rw [hsel] at h
      exact absurd (Except.error.inj h) (by decide)
    · intro h
      exact absurd hall h.2
  · have hmem : e ∈ s.items := List.getElem?_mem hk
    have hnn : s.items ≠ [] := List.ne_nil_of_mem hmem
    refine ⟨⟨?_, fun h => absurd h hnn⟩, ⟨?_, ?_⟩, ?_⟩
    · intro h
      rw [hsel] at h
      exact Except.noConfusion h
    · intro h
      rw [hsel] at h
      exact Except.noConfusion h
    · intro h
      have := h.2 e hmem
      rw [hdis] at this
      exact Bool.noConfusion this
    · intro _
      refine ⟨k, e, e.SetCurrentWeight (wrapInt (postWeight e - s.totalConfigWeight)),
        hk, hdis, by rw [hsel], rfl, hdis, ?_⟩
      rw [hsel]
      exact getElem?_set_self_of_some (s.items.map bump) k (bump e) _ (by simp [hk])

/-- C3 on the state with one disabled and two enabled items. -/
theorem Select_error_cases_witness :
    (negativeState.items ≠ [] ∧ ¬ (∀ e ∈ negativeState.items, e.disabled = true)) ∧
    ∃ (k : Nat) (e it : WeightedItem), negativeState.items[k]? = some e ∧
      e.disabled = false ∧ (Select negativeState).2 = .ok (k, it) ∧ it.name = e.name ∧
      it.disabled = false ∧ (Select negativeState).1.items[k]? = some it :=
  ⟨⟨by decide, by decide⟩,
    (Select_error_cases negativeState).2.2 ⟨by decide, by decide⟩⟩

/-- C9: with A (weight 3) and then B (weight 1) added, both enabled and with
current weight zero, four consecutive Select calls succeed and return
A, A, B, A, that is positions 0, 0, 1, 0. -/
theorem select_A3_B1_sequence :
    (selectN (build [itemA, itemB]) 4).2.map resultName =
      [some "A", some "A", some "B", some "A"] ∧
    (selectN (build [itemA, itemB]) 4).2.map (fun r => r.toOption.map Prod.fst) =
      [some 0, some 0, some 1, some 0] := by
  decide

/-- C10: with A (weight 3, enabled), B (weight 1, enabled) and C (weight 4,
disabled), the first eight Select calls return A, B, A, A, B, A, B, A: A five
times and B three times, not the six and two of the 3:1 ratio, and the sum of
the current weights drops by 4 with every call. -/
theorem disabled_item_skews_proportion :
    (selectN (build [itemA, itemB, itemC]) 8).2.map resultName =
      [some "A", some "B", some "A", some "A", some "B", some "A", some "B", some "A"] ∧
    countSelected 0 (selectN (build [itemA, itemB, itemC]) 8).2 = 5 ∧
    countSelected 1 (selectN (build [itemA, itemB, itemC]) 8).2 = 3 ∧
    countSelected 2 (selectN (build [itemA, itemB, itemC]) 8).2 = 0 ∧
    (List.range 9).map (fun n => sumCurrent (selectN (build [itemA, itemB, itemC]) n).1.items) =
      [0, -4, -8, -12, -16, -20, -24, -28, -32] := by
  decide

end Selector

namespace Selector

/-! ## Reachable states and the effect of `Select` on the weights -/

theorem sumConfig_modify_disabled (l : List WeightedItem) (i : Nat) (d : Bool) :
    sumConfig (l.modify (fun e => { e with disabled := d }) i) = sumConfig l := by
  unfold sumConfig
  congr 1
  apply List.ext_getElem?
  intro n
  simp only [List.getElem?_map, List.getElem?_modify]
  cases l[n]? with
  | none => rfl
  | some a =>
    by_cases h : i = n
    · simp [h]
    · simp [h]

theorem sumConfig_append_singleton (l : List WeightedItem) (item : WeightedItem) :
    sumConfig (l ++ [item]) = sumConfig l + item.configWeight := by
  simp [sumConfig]

theorem applyOp_total (s : WeightedRoundRobinSelector) (op : Op)
    (h : s.totalConfigWeight = wrapInt (sumConfig s.items)) :
    (applyOp s op).totalConfigWeight = wrapInt (sumConfig (applyOp s op).items) := by
  cases op with
  | addItem item =>
    show wrapInt (s.totalConfigWeight + item.configWeight) =
      wrapInt (sumConfig (s.items ++ [item]))
    rw [h, wrapInt_wrapInt_add, sumConfig_append_singleton]
  | select =>
    show (Select s).1.totalConfigWeight = wrapInt (sumConfig (Select s).1.items)
    rw [(Select_frame s).1, sumConfig_of_static (Select_frame s).2, h]
  | setDisabled i d =>
    show s.totalConfigWeight =
      wrapInt (sumConfig (s.items.modify (fun e => { e with disabled := d }) i))
    rw [sumConfig_modify_disabled, h]

theorem runOps_total (ops : List Op) (s : WeightedRoundRobinSelector)
    (h : s.totalConfigWeight = wrapInt (sumConfig s.items)) :
    (runOps s ops).totalConfigWeight = wrapInt (sumConfig (runOps s ops).items) := by
  induction ops generalizing s with
  | nil => exact h
  | cons op rest ih => exact ih (applyOp s op) (applyOp_total s op h)

/-- C4 (as amended): on every selector reached from a fresh one by AddItem
calls (and by earlier Select calls and enable/disable switches), a Select call
leaves the item order, the names, the configured weights, the enabled states
and TotalConfigWeight() unchanged; TotalConfigWeight() is the sum T of the
configured weights of all registered items, disabled ones included, reduced to
a 64-bit int; every disabled item keeps its currentWeight; a failing call
changes nothing; and on success the currentWeight of every non-disabled item
other than the winner becomes the 64-bit value of old currentWeight +
configWeight, and that of the winner the 64-bit value of old currentWeight +
configWeight - T. A 64-bit value is the exact one whenever the exact one lies
in the range of a 64-bit int. -/
theorem Select_weight_update (ops : List Op) :
    (∀ x : Int, inInt64 x = true → wrapInt x = x) ∧
    (Select (runOps NewWeightedRoundRobinSelector ops)).1.items.map staticPart =
      (runOps NewWeightedRoundRobinSelector ops).items.map staticPart ∧
    TotalConfigWeight (Select (runOps NewWeightedRoundRobinSelector ops)).1 =
      TotalConfigWeight (runOps NewWeightedRoundRobinSelector ops) ∧
    TotalConfigWeight (runOps NewWeightedRoundRobinSelector ops) =
      wrapInt (sumConfig (runOps NewWeightedRoundRobinSelector ops).items) ∧
    (∀ (j : Nat) (e : WeightedItem),
      (runOps NewWeightedRoundRobinSelector ops).items[j]? = some e → e.disabled = true →
      ∃ e1 : WeightedItem,
        (Select (runOps NewWeightedRoundRobinSelector ops)).1.items[j]? = some e1 ∧
        e1.currentWeight = e.currentWeight ∧ staticPart e1 = staticPart e) ∧
    (∀ (msg : String), (Select (runOps NewWeightedRoundRobinSelector ops)).2 = .error msg →
      (Select (runOps NewWeightedRoundRobinSelector ops)).1 =
        runOps NewWeightedRoundRobinSelector ops) ∧
    (∀ (k : Nat) (it : WeightedItem),
      (Select (runOps NewWeightedRoundRobinSelector ops)).2 = .ok (k, it) →
      (∀ (j : Nat) (e : WeightedItem),
        (runOps NewWeightedRoundRobinSelector ops).items[j]? = some e →
        e.disabled = false → j ≠ k →
        ∃ e1 : WeightedItem,
          (Select (runOps NewWeightedRoundRobinSelector ops)).1.items[j]? = some e1 ∧
          e1.currentWeight = wrapInt (e.currentWeight + e.configWeight) ∧
          staticPart e1 = staticPart e) ∧
      (∃ e : WeightedItem,
        (runOps NewWeightedRoundRobinSelector ops).items[k]? = some e ∧
        e.disabled = false ∧
        (Select (runOps NewWeightedRoundRobinSelector ops)).1.items[k]? = some it ∧
        staticPart it = staticPart e ∧
        it.currentWeight = wrapInt (e.currentWeight + e.configWeight -
          sumConfig (runOps NewWeightedRoundRobinSelector ops).items))) := by
  have htot := runOps_total ops NewWeightedRoundRobinSelector (by decide)
  generalize runOps NewWeightedRoundRobinSelector ops = s at htot ⊢
  refine ⟨wrapInt_of_inInt64, (Select_frame s).2, (Select_frame s).1, htot, ?_, ?_, ?_⟩
  · intro j e hj hd
    refine ⟨e, ?_, rfl, rfl⟩
    rcases Select_cases s with ⟨_, h⟩ | ⟨_, _, h⟩ | ⟨k, e1, hk, hdis, _, _, h⟩
    · rw [h]; exact hj
    · rw [h]; exact hj
    · rw [h]
      have hjk : k ≠ j := by
        intro heq
        subst heq
        rw [hk] at hj
        rw [Option.some.inj hj, hd] at hdis
        exact Bool.noConfusion hdis
      show ((s.items.map bump).set k _)[j]? = some e
      rw [List.getElem?_set_ne hjk]
      simp [hj, bump_of_disabled hd]
  · intro msg hmsg
    rcases Select_cases s with ⟨_, h⟩ | ⟨_, _, h⟩ | ⟨k, e1, _, _, _, _, h⟩
    · rw [h]
    · rw [h]
    · rw [h] at hmsg
      exact Except.noConfusion hmsg
  · intro k it hok
    rcases Select_cases s with ⟨_, h⟩ | ⟨_, _, h⟩ | ⟨k1, e1, hk, hdis, _, _, h⟩
    · rw [h] at hok
      exact Except.noConfusion hok
    · rw [h] at hok
      exact Except.noConfusion hok
    · rw [h] at hok
      have hpair := Except.ok.inj hok
      have hk1 : k1 = k := congrArg Prod.fst hpair
      have hit : e1.SetCurrentWeight (wrapInt (postWeight e1 - s.totalConfigWeight)) = it :=
        congrArg Prod.snd hpair
      subst hk1
      rw [h]
      refine ⟨?_, e1, hk, hdis, ?_, ?_, ?_⟩
      · intro j e hj hd hjk
        refine ⟨bump e, ?_, ?_, staticPart_bump e⟩
        · show ((s.items.map bump).set k1 _)[j]? = _
          rw [List.getElem?_set_ne (Ne.symm hjk)]
          simp [hj]
        · rw [bump_currentWeight_of_enabled hd]
          rfl
      · rw [← hit]
        exact getElem?_set_self_of_some (s.items.map bump) k1 (bump e1) _ (by simp [hk])
      · rw [← hit]
        rfl
      · rw [← hit]
        show wrapInt (postWeight e1 - s.totalConfigWeight) = _
        rw [htot, wrapInt_sub_wrapInt]
        unfold postWeight
        rw [wrapInt_wrapInt_sub]

/-- C4 (counterexample to the claim as stated): on the selector built from two
enabled items of configured weight 2^62 and current weight 0, after one Select
call, TotalConfigWeight() is -2^63 while the configured weights sum to 2^63;
the next Select call returns the item at position 0, and the other item, not
disabled and holding 2^62, ends at -2^63 instead of 2^62 + 2^62. -/
theorem Select_increment_wraps :
    TotalConfigWeight bigSecondCall = -9223372036854775808 ∧
    sumConfig bigSecondCall.items = 9223372036854775808 ∧
    bigSecondCall.items[1]? =
      some { name := "B", configWeight := 4611686018427387904,
             currentWeight := 4611686018427387904, disabled := false } ∧
    (Select bigSecondCall).2 =
      .ok (0, { name := "A", configWeight := 4611686018427387904,
                currentWeight := -9223372036854775808, disabled := false }) ∧
    (Select bigSecondCall).1.items[1]? =
      some { name := "B", configWeight := 4611686018427387904,
             currentWeight := -9223372036854775808, disabled := false } ∧
    (-9223372036854775808 : Int) ≠ 4611686018427387904 + 4611686018427387904 :=
  ⟨by decide, by decide, by decide, by rfl, by decide, by decide⟩

end Selector

namespace Selector

/-! ## Exact proportionality over whole periods -/

theorem foldl_AddItem (its : List WeightedItem) (s : WeightedRoundRobinSelector) (x : Int)
    (hx : s.totalConfigWeight = wrapInt x) :
    its.foldl AddItem s =
      { items := s.items ++ its, totalConfigWeight := wrapInt (x + sumConfig its) } := by
  induction its generalizing s x with
  | nil =>
    cases s
    simp only [List.foldl_nil, List.append_nil, sumConfig, List.map_nil, List.sum_nil,
      Int.add_zero]
    simp only at hx
    rw [hx]
  | cons a rest ih =>
    rw [List.foldl_cons, ih (AddItem s a) (x + a.configWeight)
      (by show wrapInt (s.totalConfigWeight + a.configWeight) = _
          rw [hx, wrapInt_wrapInt_add])]
    simp only [AddItem, sumConfig, List.map_cons, List.sum_cons, List.append_assoc,
      List.singleton_append, Int.add_assoc]

theorem build_eq (its : List WeightedItem) :
    build its = { items := its, totalConfigWeight := wrapInt (sumConfig its) } := by
  unfold build
  rw [foldl_AddItem its NewWeightedRoundRobinSelector 0 (by decide)]
  simp [NewWeightedRoundRobinSelector]

theorem sumCurrent_map_bump (l : List WeightedItem) (h : ∀ e ∈ l, e.disabled = false) :
    sumCurrent (l.map bump) = (l.map postWeight).sum := by
  induction l with
  | nil => rfl
  | cons a rest ih =>
    have ha := h a (List.mem_cons_self _ _)
    have ih2 := ih (fun x hx => h x (List.mem_cons_of_mem _ hx))
    unfold sumCurrent at ih2 ⊢
    simp only [List.map_cons, List.sum_cons, ih2, bump_currentWeight_of_enabled ha]

theorem sum_postWeight (l : List WeightedItem)
    (h : ∀ e ∈ l, postWeight e = e.currentWeight + e.configWeight) :
    (l.map postWeight).sum = sumCurrent l + sumConfig l := by
  induction l with
  | nil => simp [sumCurrent, sumConfig]
  | cons a rest ih =>
    have ha := h a (List.mem_cons_self _ _)
    have ih2 := ih (fun x hx => h x (List.mem_cons_of_mem _ hx))
    unfold sumCurrent sumConfig at ih2 ⊢
    simp only [List.map_cons, List.sum_cons, ih2, ha]
    ring

theorem le_sum_of_nonneg (f : WeightedItem → Int) (l : List WeightedItem)
    (hnn : ∀ x ∈ l, 0 ≤ f x) (e : WeightedItem) (he : e ∈ l) : f e ≤ (l.map f).sum := by
  induction l with
  | nil => exact absurd he (List.not_mem_nil _)
  | cons a rest ih =>
    simp only [List.map_cons, List.sum_cons]
    have ha := hnn a (List.mem_cons_self _ _)
    have hrest : 0 ≤ (rest.map f).sum :=
      List.sum_nonneg (by
        intro x hx
        obtain ⟨y, hy, rfl⟩ := List.mem_map.1 hx
        exact hnn y (List.mem_cons_of_mem _ hy))
    rcases List.mem_cons.1 he with rfl | hmem
    · omega
    · have := ih (fun x hx => hnn x (List.mem_cons_of_mem _ hx)) hmem
      omega

theorem sum_ge_of_lower (f : WeightedItem → Int) (T : Int) (l : List WeightedItem)
    (hlow : ∀ x ∈ l, -T ≤ f x) : -((l.length : Int) * T) ≤ (l.map f).sum := by
  induction l with
  | nil => simp
  | cons a rest ih =>
    have ha := hlow a (List.mem_cons_self _ _)
    have ih2 := ih (fun x hx => hlow x (List.mem_cons_of_mem _ hx))
    simp only [List.map_cons, List.sum_cons, List.length_cons]
    push_cast
    have hexp : ((rest.length : Int) + 1) * T = (rest.length : Int) * T + T := by ring
    rw [hexp]
    omega

theorem le_of_sum_of_lower (f : WeightedItem → Int) (T : Int) (l : List WeightedItem)
    (hlow : ∀ x ∈ l, -T ≤ f x) (e : WeightedItem) (he : e ∈ l) :
    f e ≤ (l.map f).sum + (l.length : Int) * T - T := by
  induction l with
  | nil => exact absurd he (List.not_mem_nil _)
  | cons a rest ih =>
    have ha := hlow a (List.mem_cons_self _ _)
    have hrest := fun x hx => hlow x (List.mem_cons_of_mem a hx)
    simp only [List.map_cons, List.sum_cons, List.length_cons]
    push_cast
    have hexp : ((rest.length : Int) + 1) * T = (rest.length : Int) * T + T := by ring
    rw [hexp]
    rcases List.mem_cons.1 he with rfl | hmem
    · have := sum_ge_of_lower f T rest hrest
      omega
    · have := ih hrest hmem
      omega

theorem exists_pos_of_sum_pos (f : WeightedItem → Int) (l : List WeightedItem)
    (h : 0 < (l.map f).sum) : ∃ e ∈ l, 0 < f e := by
  induction l with
  | nil => simp at h
  | cons a rest ih =>
    simp only [List.map_cons, List.sum_cons] at h
    by_cases ha : 0 < f a
    · exact ⟨a, List.mem_cons_self _ _, ha⟩
    · obtain ⟨e, he, hpos⟩ := ih (by omega)
      exact ⟨e, List.mem_cons_of_mem _ he, hpos⟩

theorem all_zero_of_nonneg_of_sum_zero (f : WeightedItem → Int) (l : List WeightedItem)
    (hnn : ∀ e ∈ l, 0 ≤ f e) (h : (l.map f).sum = 0) : ∀ e ∈ l, f e = 0 := by
  induction l with
  | nil => intro e he; exact absurd he (List.not_mem_nil _)
  | cons a rest ih =>
    simp only [List.map_cons, List.sum_cons] at h
    have ha := hnn a (List.mem_cons_self _ _)
    have hrest : 0 ≤ (rest.map f).sum :=
      List.sum_nonneg (by
        intro x hx
        obtain ⟨e, he, rfl⟩ := List.mem_map.1 hx
        exact hnn e (List.mem_cons_of_mem _ he))
    intro e he
    rcases List.mem_cons.1 he with rfl | hmem
    · omega
    · exact ih (fun x hx => hnn x (List.mem_cons_of_mem _ hx)) (by omega) e hmem

theorem static_fields {e1 e2 : WeightedItem} (h : staticPart e1 = staticPart e2) :
    e1.name = e2.name ∧ e1.configWeight = e2.configWeight ∧ e1.disabled = e2.disabled := by
  unfold staticPart at h
  have h1 := (Prod.mk.inj h).1
  have h2 := (Prod.mk.inj (Prod.mk.inj h).2)
  exact ⟨h1, h2.1, h2.2⟩

/-- In a balanced selector no increment leaves the range of an `int`. -/
theorem postWeight_exact_of_Balanced (T : Int) (n : Nat) (c : Nat → Nat)
    (s : WeightedRoundRobinSelector) (hT : 0 < T) (h : Balanced T n c s) :
    T ≤ 9223372036854775807 ∧
    ∀ e ∈ s.items, postWeight e = e.currentWeight + e.configWeight ∧
      e.currentWeight + e.configWeight ≤ 9223372036854775807 := by
  obtain ⟨hB, htot, hsum, hen, hcur, hidx⟩ := h
  have hlow : ∀ x ∈ s.items, -T ≤ x.currentWeight := by
    intro x hx
    obtain ⟨j, hj⟩ := List.getElem?_of_mem hx
    have := (hidx j x hj).2
    omega
  have hmain : ∀ e ∈ s.items, T ≤ 9223372036854775807 ∧
      postWeight e = e.currentWeight + e.configWeight ∧
      e.currentWeight + e.configWeight ≤ 9223372036854775807 := by
    intro e he
    have hup := le_of_sum_of_lower (fun x => x.currentWeight) T s.items hlow e he
    have hcur2 : (s.items.map (fun x => x.currentWeight)).sum = 0 := hcur
    rw [hcur2] at hup
    have hw := le_sum_of_nonneg (fun x => x.configWeight) s.items
      (fun x hx => (hen x hx).2) e he
    have hsum2 : (s.items.map (fun x => x.configWeight)).sum = T := hsum
    rw [hsum2] at hw
    have hlo := hlow e he
    have hw0 := (hen e he).2
    have hlen : (1 : Int) ≤ (s.items.length : Int) := by
      have := List.length_pos_of_mem he
      omega
    have hPT : T ≤ (s.items.length : Int) * T :=
      le_mul_of_one_le_left (le_of_lt hT) hlen
    simp only at hup hw hlo
    refine ⟨by omega, ?_, by omega⟩
    unfold postWeight
    apply wrapInt_of_bounds <;> omega
  constructor
  · cases hl : s.items with
    | nil =>
      rw [hl] at hsum
      simp [sumConfig] at hsum
      omega
    | cons a rest =>
      have hmem : a ∈ s.items := by rw [hl]; exact List.mem_cons_self _ _
      exact (hmain a hmem).1
  · intro e he
    exact (hmain e he).2

/-- One `Select` call on a balanced all-enabled selector succeeds and leaves a
balanced selector, with one more selection counted for the returned position. -/
theorem Balanced_step (T : Int) (n : Nat) (c : Nat → Nat) (s : WeightedRoundRobinSelector)
    (hT : 0 < T) (h : Balanced T n c s) :
    ∃ (k : Nat) (it : WeightedItem), (Select s).2 = .ok (k, it) ∧
      Balanced T (n + 1) (fun j => c j + if k = j then 1 else 0) (Select s).1 := by
  obtain ⟨hTmax, hexact⟩ := postWeight_exact_of_Balanced T n c s hT h
  obtain ⟨hB, htot, hsum, hen, hcur, hidx⟩ := h
  rcases Select_cases s with ⟨hnil, _⟩ | ⟨hnn, hall, _⟩ | ⟨k, e, hk, hdis, hmax, _, hsel⟩
  · rw [hnil] at hsum
    simp [sumConfig] at hsum
    omega
  · cases hl : s.items with
    | nil => exact absurd hl hnn
    | cons a rest =>
      have hmem : a ∈ s.items := by rw [hl]; exact List.mem_cons_self _ _
      have h1 := hall a hmem
      rw [(hen a hmem).1] at h1
      exact Bool.noConfusion h1
  · have hframe := Select_frame s
    have hemem : e ∈ s.items := List.getElem?_mem hk
    have hallen : ∀ x ∈ s.items, x.disabled = false := fun x hx => (hen x hx).1
    have hsumpw : (s.items.map postWeight).sum = T := by
      rw [sum_postWeight s.items (fun x hx => (hexact x hx).1), hcur, hsum]
      omega
    have hpos : 0 < postWeight e := by
      obtain ⟨e2, he2, hp2⟩ := exists_pos_of_sum_pos postWeight s.items (by omega)
      obtain ⟨j2, hj2⟩ := List.getElem?_of_mem he2
      have := hmax j2 e2 hj2 (hallen e2 he2)
      omega
    have hpe := hexact e hemem
    have hwin : wrapInt (postWeight e - s.totalConfigWeight) = postWeight e - T := by
      rw [htot]
      apply wrapInt_of_bounds <;> omega
    have hitems : (Select s).1.items = (s.items.map bump).set k
        (e.SetCurrentWeight (postWeight e - T)) := by rw [hsel, hwin]
    refine ⟨k, _, by rw [hsel], ?_, hframe.1.trans htot,
      (sumConfig_of_static hframe.2).trans hsum, ?_, ?_, ?_⟩
    · rw [hitems]
      simpa using hB
    · intro x hx
      obtain ⟨j, hj⟩ := List.getElem?_of_mem hx
      obtain ⟨x2, hx2, hst⟩ := getElem?_of_static hframe.2 j x hj
      have hf := static_fields hst
      have := hen x2 (List.getElem?_mem hx2)
      rw [hf.2.1, hf.2.2] at this
      exact this
    · rw [hitems]
      unfold sumCurrent
      rw [sum_map_set (fun x => x.currentWeight) (s.items.map bump) k (bump e) _
        (by simp [hk])]
      have h1 := sumCurrent_map_bump s.items hallen
      unfold sumCurrent at h1
      rw [h1, hsumpw, bump_currentWeight_of_enabled hdis]
      simp only [WeightedItem.SetCurrentWeight]
      ring
    · intro j x hj
      rw [hitems] at hj
      by_cases hjk : k = j
      · subst hjk
        rw [getElem?_set_self_of_some (s.items.map bump) k (bump e) _ (by simp [hk])] at hj
        have hx := Option.some.inj hj
        subst hx
        have hcw := (hidx k e hk).1
        simp only [WeightedItem.SetCurrentWeight, if_true]
        refine ⟨?_, by omega⟩
        rw [hpe.1, hcw]
        push_cast
        ring
      · rw [List.getElem?_set_ne hjk, List.getElem?_map] at hj
        cases h0 : s.items[j]? with
        | none => rw [h0] at hj; exact Option.noConfusion hj
        | some e0 =>
          rw [h0] at hj
          have hx : bump e0 = x := Option.some.inj hj
          have he0 := List.getElem?_mem h0
          rw [bump_of_enabled (hallen e0 he0)] at hx
          subst hx
          have hcw := hidx j e0 h0
          have hw := (hen e0 he0).2
          have hp0 := (hexact e0 he0).1
          simp only [WeightedItem.SetCurrentWeight, hjk, if_false]
          refine ⟨?_, by omega⟩
          rw [hp0, hcw.1]
          push_cast
          ring

end Selector

namespace Selector

theorem countSelected_nil (j : Nat) : countSelected j [] = 0 := rfl

theorem countSelected_cons_ok (j k : Nat) (it : WeightedItem)
    (rs : List (Except String (Nat × WeightedItem))) :
    countSelected j (.ok (k, it) :: rs) = (if k = j then 1 else 0) + countSelected j rs := by
  unfold countSelected
  by_cases h : k = j
  · simp [List.filter_cons, returnedIndex, h]
    omega
  · simp [List.filter_cons, returnedIndex, h]

theorem countSelected_append (j : Nat) (a b : List (Except String (Nat × WeightedItem))) :
    countSelected j (a ++ b) = countSelected j a + countSelected j b := by
  unfold countSelected
  rw [List.filter_append, List.length_append]

theorem selectN_succ (s : WeightedRoundRobinSelector) (m : Nat) :
    selectN s (m + 1) =
      ((selectN (Select s).1 m).1, (Select s).2 :: (selectN (Select s).1 m).2) := rfl

theorem selectN_add (a b : Nat) (s : WeightedRoundRobinSelector) :
    selectN s (a + b) =
      ((selectN (selectN s a).1 b).1, (selectN s a).2 ++ (selectN (selectN s a).1 b).2) := by
  induction a generalizing s with
  | zero => simp [selectN]
  | succ a ih =>
    rw [Nat.succ_add, selectN_succ, ih, selectN_succ]
    simp

theorem selectN_frame (m : Nat) (s : WeightedRoundRobinSelector) :
    (selectN s m).1.items.map staticPart = s.items.map staticPart := by
  induction m generalizing s with
  | zero => rfl
  | succ m ih =>
    rw [selectN_succ]
    exact (ih (Select s).1).trans (Select_frame s).2

/-- After `m` more calls a balanced selector is still balanced, every call
succeeded, and the counts grew by the number of times each position was
returned. -/
theorem Balanced_selectN (T : Int) (hT : 0 < T) (m : Nat) :
    ∀ (n : Nat) (c : Nat → Nat) (s : WeightedRoundRobinSelector), Balanced T n c s →
      (∀ r ∈ (selectN s m).2, ∃ (k : Nat) (it : WeightedItem), r = .ok (k, it)) ∧
      (selectN s m).2.length = m ∧
      Balanced T (n + m) (fun j => c j + countSelected j (selectN s m).2) (selectN s m).1 := by
  induction m with
  | zero =>
    intro n c s h
    refine ⟨?_, rfl, ?_⟩
    · intro r hr
      exact absurd hr (List.not_mem_nil _)
    · have hc : (fun j => c j + countSelected j (selectN s 0).2) = c := by
        funext j
        show c j + countSelected j [] = c j
        rw [countSelected_nil]
        rfl
      rw [hc]
      exact h
  | succ m ih =>
    intro n c s h
    obtain ⟨k, it, hok, hb⟩ := Balanced_step T n c s hT h
    obtain ⟨h1, h2, h3⟩ := ih (n + 1) _ (Select s).1 hb
    rw [selectN_succ]
    refine ⟨?_, ?_, ?_⟩
    · intro r hr
      rcases List.mem_cons.1 hr with rfl | hmem
      · exact ⟨k, it, hok⟩
      · exact h1 r hmem
    · simp [h2]
    · have hc : (fun j => c j + countSelected j ((Select s).2 :: (selectN (Select s).1 m).2)) =
          (fun j => (c j + if k = j then 1 else 0) +
            countSelected j (selectN (Select s).1 m).2) := by
        funext j
        rw [hok, countSelected_cons_ok]
        omega
      have hn : n + (m + 1) = n + 1 + m := by omega
      show Balanced T (n + (m + 1)) _ (selectN (Select s).1 m).1
      rw [hc, hn]
      exact h3

theorem items_eq_of_static (l1 l2 : List WeightedItem)
    (h : l1.map staticPart = l2.map staticPart)
    (h1 : ∀ e ∈ l1, e.currentWeight = 0) (h2 : ∀ e ∈ l2, e.currentWeight = 0) : l1 = l2 := by
  induction l1 generalizing l2 with
  | nil =>
    cases l2 with
    | nil => rfl
    | cons b r2 => simp at h
  | cons a r1 ih =>
    cases l2 with
    | nil => simp at h
    | cons b r2 =>
      simp only [List.map_cons, List.cons.injEq] at h
      have hf := static_fields h.1
      have ha := h1 a (List.mem_cons_self _ _)
      have hb := h2 b (List.mem_cons_self _ _)
      have hab : a = b := by
        cases a
        cases b
        simp_all
      rw [hab, ih r2 h.2 (fun x hx => h1 x (List.mem_cons_of_mem _ hx))
        (fun x hx => h2 x (List.mem_cons_of_mem _ hx))]

end Selector

namespace Selector

theorem sumConfig_bounds (its : List WeightedItem)
    (hpos : 0 < sumConfig its)
    (hB : (its.length : Int) * sumConfig its ≤ 9223372036854775807) :
    sumConfig its ≤ 9223372036854775807 := by
  have hlen : (1 : Int) ≤ (its.length : Int) := by
    cases its with
    | nil => simp [sumConfig] at hpos
    | cons a rest => simp only [List.length_cons]; push_cast; omega
  have := le_mul_of_one_le_left (le_of_lt hpos) hlen
  omega

theorem Balanced_build (its : List WeightedItem)
    (h0 : ∀ e ∈ its, e.currentWeight = 0 ∧ e.disabled = false ∧ 0 ≤ e.configWeight)
    (hpos : 0 < sumConfig its)
    (hB : (its.length : Int) * sumConfig its ≤ 9223372036854775807) :
    Balanced (sumConfig its) 0 (fun _ => 0) (build its) := by
  have hmax := sumConfig_bounds its hpos hB
  rw [build_eq, wrapInt_of_bounds (sumConfig its) (by omega) hmax]
  refine ⟨hB, rfl, rfl, fun e he => (h0 e he).2, ?_, ?_⟩
  · show sumCurrent its = 0
    unfold sumCurrent
    have : its.map (fun e => e.currentWeight) = its.map (fun _ => (0 : Int)) :=
      List.map_congr_left (fun e he => (h0 e he).1)
    rw [this]
    simp
  · intro j e hj
    have he : e ∈ its := List.getElem?_mem hj
    rw [(h0 e he).1]
    constructor
    · simp
    · omega

/-- One full period: after `sumConfig its` calls on a freshly built all-enabled
selector the state is the initial one again, every call succeeded, and
position `j` was returned exactly `configWeight` times. -/
theorem selectN_period (its : List WeightedItem)
    (h0 : ∀ e ∈ its, e.currentWeight = 0 ∧ e.disabled = false ∧ 0 ≤ e.configWeight)
    (hpos : 0 < sumConfig its)
    (hB : (its.length : Int) * sumConfig its ≤ 9223372036854775807) :
    (selectN (build its) (sumConfig its).toNat).1 = build its ∧
    (∀ r ∈ (selectN (build its) (sumConfig its).toNat).2,
      ∃ (k : Nat) (it : WeightedItem), r = .ok (k, it)) ∧
    (selectN (build its) (sumConfig its).toNat).2.length = (sumConfig its).toNat ∧
    ∀ (j : Nat) (e : WeightedItem), its[j]? = some e →
      (countSelected j (selectN (build its) (sumConfig its).toNat).2 : Int) =
        e.configWeight := by
  obtain ⟨hok, hlen, hbal⟩ := Balanced_selectN (sumConfig its) hpos (sumConfig its).toNat 0
    (fun _ => 0) (build its) (Balanced_build its h0 hpos hB)
  have hframe := selectN_frame (sumConfig its).toNat (build its)
  have hbitems : (build its).items = its := by rw [build_eq]
  rw [hbitems] at hframe
  have hmax := sumConfig_bounds its hpos hB
  generalize selectN (build its) (sumConfig its).toNat = res at hok hlen hbal hframe ⊢
  obtain ⟨_, htot, hsum, hen, hcur, hidx⟩ := hbal
  have hT : (((sumConfig its).toNat : Nat) : Int) = sumConfig its :=
    Int.toNat_of_nonneg (le_of_lt hpos)
  have hidx2 : ∀ (j : Nat) (e : WeightedItem), res.1.items[j]? = some e →
      e.currentWeight = sumConfig its * e.configWeight -
        sumConfig its * (countSelected j res.2 : Int) ∧ -sumConfig its < e.currentWeight := by
    intro j e hj
    have h := hidx j e hj
    simp only [Nat.zero_add, hT] at h
    exact h
  have hnonneg : ∀ (j : Nat) (e : WeightedItem), res.1.items[j]? = some e →
      0 ≤ e.configWeight - (countSelected j res.2 : Int) := by
    intro j e hj
    obtain ⟨h1, h2⟩ := hidx2 j e hj
    rw [h1] at h2
    by_contra hneg
    have h3 : e.configWeight - (countSelected j res.2 : Int) ≤ -1 := by omega
    have h4 : sumConfig its * (e.configWeight - (countSelected j res.2 : Int)) ≤
        sumConfig its * (-1) := Int.mul_le_mul_of_nonneg_left h3 (le_of_lt hpos)
    have h5 : sumConfig its * e.configWeight - sumConfig its * (countSelected j res.2 : Int) =
        sumConfig its * (e.configWeight - (countSelected j res.2 : Int)) := by ring
    omega
  have hcw : ∀ (j : Nat) (e : WeightedItem), res.1.items[j]? = some e →
      e.currentWeight = sumConfig its * (e.configWeight - (countSelected j res.2 : Int)) := by
    intro j e hj
    rw [(hidx2 j e hj).1]
    ring
  have hzero : ∀ e ∈ res.1.items, e.currentWeight = 0 := by
    apply all_zero_of_nonneg_of_sum_zero (fun e => e.currentWeight) res.1.items _ hcur
    intro e he
    obtain ⟨j, hj⟩ := List.getElem?_of_mem he
    show 0 ≤ e.currentWeight
    rw [hcw j e hj]
    exact Int.mul_nonneg (le_of_lt hpos) (hnonneg j e hj)
  have hitems : res.1.items = its :=
    items_eq_of_static res.1.items its hframe hzero (fun e he => (h0 e he).1)
  refine ⟨?_, hok, hlen, ?_⟩
  · rw [build_eq, wrapInt_of_bounds (sumConfig its) (by omega) hmax]
    cases hres : res.1 with
    | mk items total =>
      rw [hres] at hitems htot
      simp only at hitems htot
      rw [hitems, htot]
  · intro j e hj
    rw [← hitems] at hj
    have h1 := hcw j e hj
    rw [hzero e (List.getElem?_mem hj)] at h1
    have h2 : e.configWeight - (countSelected j res.2 : Int) = 0 := by
      rcases Int.mul_eq_zero.1 h1.symm with h | h
      · omega
      · exact h
    omega

/-- Repeating a run that returns to its starting state multiplies the counts. -/
theorem selectN_periods (s : WeightedRoundRobinSelector) (p : Nat)
    (hp : (selectN s p).1 = s)
    (hok : ∀ r ∈ (selectN s p).2, ∃ (k : Nat) (it : WeightedItem), r = .ok (k, it))
    (m : Nat) :
    (selectN s (m * p)).1 = s ∧
    (∀ r ∈ (selectN s (m * p)).2, ∃ (k : Nat) (it : WeightedItem), r = .ok (k, it)) ∧
    ∀ j : Nat, countSelected j (selectN s (m * p)).2 = m * countSelected j (selectN s p).2 := by
  induction m with
  | zero =>
    rw [Nat.zero_mul]
    refine ⟨rfl, ?_, ?_⟩
    · intro r hr
      exact absurd hr (List.not_mem_nil _)
    · intro j
      rw [Nat.zero_mul]
      rfl
  | succ m ih =>
    obtain ⟨h1, h2, h3⟩ := ih
    rw [Nat.succ_mul, selectN_add, h1]
    refine ⟨hp, ?_, ?_⟩
    · intro r hr
      rcases List.mem_append.1 hr with h | h
      · exact h2 r h
      · exact hok r h
    · intro j
      show countSelected j ((selectN s (m * p)).2 ++ (selectN s p).2) = _
      rw [countSelected_append, h3 j, Nat.succ_mul]

/-- C2 (as amended): on a selector built by AddItem from enabled items with
current weight zero and non-negative configured weights of positive sum
sum(w), such that the number of items times sum(w) is at most the largest
64-bit int, the first m * sum(w) Select calls all succeed and return the item
at position j exactly m * w_j times. -/
theorem Select_exact_proportion (its : List WeightedItem)
    (h0 : ∀ e ∈ its, e.currentWeight = 0 ∧ e.disabled = false ∧ 0 ≤ e.configWeight)
    (hpos : 0 < sumConfig its)
    (hB : (its.length : Int) * sumConfig its ≤ 9223372036854775807) (m : Nat) :
    (∀ r ∈ (selectN (build its) (m * (sumConfig its).toNat)).2,
      ∃ (k : Nat) (it : WeightedItem), r = .ok (k, it)) ∧
    ∀ (j : Nat) (e : WeightedItem), its[j]? = some e →
      (countSelected j (selectN (build its) (m * (sumConfig its).toNat)).2 : Int) =
        (m : Int) * e.configWeight := by
  obtain ⟨hp, hok, _, hcnt⟩ := selectN_period its h0 hpos hB
  obtain ⟨_, h2, h3⟩ := selectN_periods (build its) (sumConfig its).toNat hp hok m
  refine ⟨h2, ?_⟩
  intro j e hj
  rw [h3 j]
  push_cast
  rw [hcnt j e hj]

/-- C2 (as amended) on the selector with A (weight 3) and B (weight 1), for
two periods. -/
theorem Select_exact_proportion_witness :
    ((∀ e ∈ [itemA, itemB],
        e.currentWeight = 0 ∧ e.disabled = false ∧ 0 ≤ e.configWeight) ∧
      0 < sumConfig [itemA, itemB] ∧
      (([itemA, itemB].length : Nat) : Int) * sumConfig [itemA, itemB] ≤
        9223372036854775807) ∧
    ((∀ r ∈ (selectN (build [itemA, itemB]) (2 * (sumConfig [itemA, itemB]).toNat)).2,
      ∃ (k : Nat) (it : WeightedItem), r = .ok (k, it)) ∧
    ∀ (j : Nat) (e : WeightedItem), [itemA, itemB][j]? = some e →
      (countSelected j
        (selectN (build [itemA, itemB]) (2 * (sumConfig [itemA, itemB]).toNat)).2 : Int) =
        ((2 : Nat) : Int) * e.configWeight) :=
  ⟨⟨by decide, by decide, by decide⟩,
    Select_exact_proportion [itemA, itemB] (by decide) (by decide) (by decide) 2⟩

/-- From the state reached after two calls, the selector built from `bigA` and
`bigB` alternates between the two positions. -/
theorem bigCycle_count (k : Nat) :
    countSelected 0 (selectN (build [bigA, bigB]) (2 + k * 2)).2 = 2 + k := by
  have h1 : (selectN (build [bigA, bigB]) 2).1 = bigCycleState := by decide
  have h2 : countSelected 0 (selectN (build [bigA, bigB]) 2).2 = 2 := by decide
  have h3 : (selectN bigCycleState 2).1 = bigCycleState := by decide
  have h4 : countSelected 0 (selectN bigCycleState 2).2 = 1 := by decide
  have h5 : ((selectN bigCycleState 2).2.map (fun r => r.toOption.isSome)) =
      [true, true] := by decide
  have hok : ∀ r ∈ (selectN bigCycleState 2).2,
      ∃ (k : Nat) (it : WeightedItem), r = .ok (k, it) := by
    intro r hr
    have hr2 : r.toOption.isSome = true := by
      have hm : r.toOption.isSome ∈
          (selectN bigCycleState 2).2.map (fun r => r.toOption.isSome) :=
        List.mem_map.2 ⟨r, hr, rfl⟩
      rw [h5] at hm
      simpa using hm
    cases r with
    | error msg => simp [Except.toOption] at hr2
    | ok v => exact ⟨v.1, v.2, rfl⟩
  obtain ⟨_, _, hcnt⟩ := selectN_periods bigCycleState 2 h3 hok k
  rw [selectN_add, h1]
  show countSelected 0 ((selectN (build [bigA, bigB]) 2).2 ++
    (selectN bigCycleState (k * 2)).2) = 2 + k
  rw [countSelected_append, h2, hcnt 0, h4, Nat.mul_one]

/-- C2 (counterexample to the claim as stated): two enabled items of
configured weight 2^62 and current weight 0 meet the conditions of the claim
with sum(w) = 2^63; with m = 1, among the first 2^63 Select calls the item at
position 0 is returned 2^62 + 1 times, not 1 * 2^62 times. -/
theorem Select_proportion_fails_on_overflow :
    (∀ e ∈ [bigA, bigB], e.currentWeight = 0 ∧ e.disabled = false ∧ 0 ≤ e.configWeight) ∧
    0 < sumConfig [bigA, bigB] ∧
    1 * (sumConfig [bigA, bigB]).toNat = 9223372036854775808 ∧
    countSelected 0 (selectN (build [bigA, bigB]) (1 * (sumConfig [bigA, bigB]).toNat)).2 =
      4611686018427387905 ∧
    ((4611686018427387905 : Nat) : Int) ≠ ((1 : Nat) : Int) * bigA.configWeight := by
  have hN : 1 * (sumConfig [bigA, bigB]).toNat = 2 + 4611686018427387903 * 2 := by decide
  refine ⟨by decide, by decide, by decide, ?_, by decide⟩
  rw [hN]
  exact bigCycle_count 4611686018427387903

end Selector

namespace TgBot

/-! ## Message handling and reload -/

/-- Apart from a failed reply send, every run of handleMessage performs exactly
one terminal transition. -/
theorem handleMessage_one_terminal_otherwise (b : Bot) (msg : Message) (env : Env)
    (h : ¬ (isAllowed b msg = some true ∧ env.detect = .success ∧
      env.translate = .success ∧ env.send = .error)) :
    (terminalTransitions (handleMessage b msg env)).length = 1 := by
  obtain ⟨d, t, sd⟩ := env
  unfold handleMessage handleMessageBody
  cases ha : isAllowed b msg with
  | none => rfl
  | some a =>
    cases a with
    | false => rfl
    | true =>
      cases d <;> cases t <;> cases sd <;> first | rfl | exact absurd ⟨ha, rfl, rfl, rfl⟩ h

/-- C5 (failing input): for an allowed message whose detection and translation
succeed and whose reply send returns an error, handleMessage records the failed
transition and then, lacking a return, the success transition as well: two
terminal transitions instead of one. -/
theorem handleMessage_send_error_two_terminals :
    handleMessage sampleBot sampleMessage sendFails =
      [.detectLang, .translate, .send, .onMessageHandleFailed, .onSuccess] ∧
    terminalTransitions (handleMessage sampleBot sampleMessage sendFails) =
      [.onMessageHandleFailed, .onSuccess] := by
  decide

/-- C8 (as amended): Reload always stores the new allow-list, message
settings, translate-service handle and pool size. When the one-slot buffer of
the stop channel has room, it sends the stop signal and starts a new
dispatcher loop exactly when the new worker_pool_size differs from the stored
one, does neither otherwise, and returns without error. When the sizes are
equal it does neither, whatever the buffer holds. When the sizes differ and
the buffer still holds a stop signal, the call is blocked at the send and no
new loop has been started. -/
theorem Reload_restart_iff (b : Bot) (botConfig : BotConfig) (translateService : Nat) :
    ((Reload b botConfig translateService).1.allowedChats = botConfig.allowedChats ∧
      (Reload b botConfig translateService).1.messageSettings = botConfig.messageSettings ∧
      (Reload b botConfig translateService).1.translateService = translateService ∧
      (Reload b botConfig translateService).1.workerPoolSize = botConfig.workerPoolSize) ∧
    (b.stopServeNotify < stopServeNotifyCap →
      ((Reload b botConfig translateService).2.1 = [.sendStop, .goServeBot] ↔
        botConfig.workerPoolSize ≠ b.workerPoolSize) ∧
      ((Reload b botConfig translateService).2.1 = [] ↔
        botConfig.workerPoolSize = b.workerPoolSize) ∧
      (Reload b botConfig translateService).2.2 = .returned none ∧
      (botConfig.workerPoolSize ≠ b.workerPoolSize →
        (Reload b botConfig translateService).1.stopServeNotify = b.stopServeNotify + 1)) ∧
    (botConfig.workerPoolSize = b.workerPoolSize →
      (Reload b botConfig translateService).2.1 = [] ∧
      (Reload b botConfig translateService).2.2 = .returned none ∧
      (Reload b botConfig translateService).1.stopServeNotify = b.stopServeNotify) ∧
    (¬ b.stopServeNotify < stopServeNotifyCap →
      botConfig.workerPoolSize ≠ b.workerPoolSize →
      (Reload b botConfig translateService).2.1 = [] ∧
      (Reload b botConfig translateService).2.2 = .blockedOnSend) := by
  unfold Reload loadConfig
  by_cases h : b.workerPoolSize = botConfig.workerPoolSize
  · simp [h]
  · have h2 : ¬ botConfig.workerPoolSize = b.workerPoolSize := fun e => h e.symm
    by_cases hc : b.stopServeNotify < stopServeNotifyCap
    · simp [h, h2, hc]
    · simp [h, h2, hc]

/-- C8 (as amended) on a bot whose stop channel is empty and a configuration
with another pool size. -/
theorem Reload_restart_iff_witness :
    sampleBot.stopServeNotify < stopServeNotifyCap ∧
    (((Reload sampleBot resizeConfig 2).2.1 = [.sendStop, .goServeBot] ↔
        resizeConfig.workerPoolSize ≠ sampleBot.workerPoolSize) ∧
      ((Reload sampleBot resizeConfig 2).2.1 = [] ↔
        resizeConfig.workerPoolSize = sampleBot.workerPoolSize) ∧
      (Reload sampleBot resizeConfig 2).2.2 = .returned none ∧
      (resizeConfig.workerPoolSize ≠ sampleBot.workerPoolSize →
        (Reload sampleBot resizeConfig 2).1.stopServeNotify =
          sampleBot.stopServeNotify + 1)) :=
  ⟨by decide, (Reload_restart_iff sampleBot resizeConfig 2).2.1 (by decide)⟩

/-- C8 (counterexample to the claim as stated): on a bot of pool size 2 whose
stop channel still holds the signal of an earlier reload, Reload with pool
size 3 stores the new configuration and then blocks at the send: no stop
signal has been sent and no new dispatcher loop started although the sizes
differ. -/
theorem Reload_blocks_on_pending_stop :
    resizeConfig.workerPoolSize ≠ pendingStopBot.workerPoolSize ∧
    (Reload pendingStopBot resizeConfig 2).2.1 = [] ∧
    (Reload pendingStopBot resizeConfig 2).2.2 = .blockedOnSend ∧
    (Reload pendingStopBot resizeConfig 2).1.workerPoolSize = 3 := by
  decide

end TgBot
